import Mathlib

/-
Verification of the data-collection and streak-computation pipeline of the
GitHub profile generator (src/classes/GitHubProfileGenerator.class.ts).

The embedding models remote API responses as explicit inputs:
a successful response is wrapped in Except.ok, a thrown network or parsing
error in Except.error.  Dates are modelled as integers counting UTC days
(a date string normalized to UTC midnight corresponds to one integer), so
"today minus one day" is subtraction by 1.
-/

namespace ProfileGen

/-- A repository descriptor as consumed by the aggregators:
only the fields the pipeline reads (name, fork flag, star count). -/
structure Repo where
  name : String
  fork : Bool
  stargazers_count : Nat
deriving DecidableEq

/-! ### Repository Collector (fetchRepositories, lines 21-41)

The remote listing endpoint is modelled as the full server-side list; page
p of size 100 returns the slice starting at (p-1)*100.  The loop keeps
fetching while the page that just arrived has exactly 100 items. -/

/-- One page of the paginated listing endpoint (per_page = 100). -/
def pageAt (server : List Repo) (page : Nat) : List Repo :=
  (server.drop ((page - 1) * 100)).take 100

/-- The while-loop of fetchRepositories: accumulates pages, continuing
exactly while the page just fetched has length 100.  Returns the
accumulated repositories and the index of the last page fetched. -/
def fetchLoop (server acc : List Repo) (page : Nat) : List Repo × Nat :=
  if h : (pageAt server page).length = 100 then
    fetchLoop server (acc ++ pageAt server page) (page + 1)
  else
    (acc ++ pageAt server page, page)
termination_by server.length + 100 - page * 100
decreasing_by
  simp [pageAt] at h
  omega

/-- fetchRepositories: all repositories of the subject user. -/
def fetchRepositories (server : List Repo) : List Repo :=
  (fetchLoop server [] 1).1

/-- Number of pages the collector fetches for a given server-side list. -/
def pagesFetched (server : List Repo) : Nat :=
  (fetchLoop server [] 1).2

/-! ### Stars aggregator (fetchTotalStars, lines 177-180)

No try/catch in the source: a failure of the repository listing
propagates out of the aggregator unchanged. -/

/-- The reduce inside fetchTotalStars. -/
def totalStarsReduce (repos : List Repo) : Nat :=
  repos.foldl (fun acc repo => acc + repo.stargazers_count) 0

/-- fetchTotalStars: sums star counts over the fetched repositories;
an error of the repository fetch is not caught. -/
def fetchTotalStars (reposE : Except Unit (List Repo)) : Except Unit Nat :=
  reposE.map totalStarsReduce

theorem totalStarsReduce_aux (repos : List Repo) :
    ∀ a : Nat, repos.foldl (fun acc repo => acc + repo.stargazers_count) a =
      a + (repos.map (fun r => r.stargazers_count)).sum := by
  induction repos with
  | nil => intro a; simp
  | cons r rest ih =>
    intro a
    simp [List.foldl_cons, ih, Nat.add_assoc]

theorem totalStarsReduce_eq_sum (repos : List Repo) :
    totalStarsReduce repos = (repos.map (fun r => r.stargazers_count)).sum := by
  simpa [totalStarsReduce] using totalStarsReduce_aux repos 0

/-! ### Collector correctness lemmas -/

theorem fetchLoop_spec (server : List Repo) :
    ∀ (n : Nat) (acc : List Repo) (page : Nat), 1 ≤ page →
      server.length + 100 - page * 100 = n →
      fetchLoop server acc page =
        (acc ++ server.drop ((page - 1) * 100),
         page + (server.length - (page - 1) * 100) / 100) := by
  intro n
  induction n using Nat.strong_induction_on with
  | _ n ih =>
    intro acc page hp hn
    rw [fetchLoop.eq_def]
    by_cases h : (pageAt server page).length = 100
    · simp only [h, dite_true]
      have hlen : (pageAt server page).length = 100 := h
      simp [pageAt] at hlen
      have hrec := ih (server.length + 100 - (page + 1) * 100)
        (by omega) (acc ++ pageAt server page) (page + 1) (by omega) rfl
      rw [hrec]
      simp only [Prod.mk.injEq]
      refine ⟨?_, ?_⟩
      · rw [List.append_assoc]
        congr 1
        simp only [pageAt]
        have heq : (page + 1 - 1) * 100 = (page - 1) * 100 + 100 := by omega
        rw [heq, ← List.drop_drop]
        exact (List.take_append_drop 100 (server.drop ((page - 1) * 100)))
      · have heq : (page + 1 - 1) * 100 = (page - 1) * 100 + 100 := by omega
        rw [heq]
        omega
    · simp only [h, dite_false]
      have hlen : (pageAt server page).length ≠ 100 := h
      simp [pageAt] at hlen
      simp only [Prod.mk.injEq]
      refine ⟨?_, ?_⟩
      · congr 1
        simp only [pageAt]
        exact List.take_of_length_le (by simp [List.length_drop]; omega)
      · omega

theorem fetchRepositories_eq (server : List Repo) :
    fetchRepositories server = server := by
  have h := fetchLoop_spec server (server.length + 100 - 100) [] 1 (by omega) (by omega)
  simp [fetchRepositories, h]

theorem pagesFetched_eq (server : List Repo) :
    pagesFetched server = server.length / 100 + 1 := by
  have h := fetchLoop_spec server (server.length + 100 - 100) [] 1 (by omega) (by omega)
  simp [pagesFetched, h]
  omega

/-- C4 (confirmed): the Repository Collector returns all N repositories for
every total count N — including exact multiples of the page size 100 — and a
full final page always triggers exactly one more fetch: the number of pages
fetched is N / 100 + 1. -/
theorem claim4_collector_complete (server : List Repo) :
    fetchRepositories server = server ∧
    pagesFetched server = server.length / 100 + 1 := by
  exact ⟨fetchRepositories_eq server, pagesFetched_eq server⟩

/-! ### Search-based aggregators (fetchPullRequestCount / fetchIssueCount,
lines 153-175): each wraps one search call in try/catch with a literal
fallback constant. -/

/-- fetchPullRequestCount: total_count of the pr search, 89 on error. -/
def fetchPullRequestCount (search : Except Unit Nat) : Nat :=
  match search with
  | .ok n => n
  | .error _ => 89

/-- fetchIssueCount: total_count of the issue search, 156 on error. -/
def fetchIssueCount (search : Except Unit Nat) : Nat :=
  match search with
  | .ok n => n
  | .error _ => 156

/-! ### Commit counting (fetchCommitCountFromRepos lines 43-117,
fetchCommitCountGraphQL lines 120-151)

Per repository the commit-listing call either throws with an HTTP status
(modelled as Except.error status) or yields a parsed last-page number from
the Link header (modelled as Option Nat, none when the header is absent or
does not match the regex). -/

/-- Result of one per-repository commit listing: error status, or the
last-page number parsed from the Link header when present. -/
abbrev CommitFetch := Except Nat (Option Nat)

/-- Lines 80-88: default count 1, replaced by the last-page number when the
Link header matched. -/
def repoCommitCount (link : Option Nat) : Nat :=
  match link with
  | some n => n
  | none => 1

/-- The for-loop of fetchCommitCountFromRepos: forks are skipped, a
repository whose listing throws is skipped (404/409 explicitly continue;
other statuses are logged and the loop continues as well). -/
def commitsLoop : List (Repo × CommitFetch) → Nat
  | [] => 0
  | (repo, res) :: rest =>
    if repo.fork then commitsLoop rest
    else
      match res with
      | .ok link => repoCommitCount link + commitsLoop rest
      | .error _ => commitsLoop rest

/-- fetchCommitCountFromRepos: the whole path returns 1247 when the
repository fetch itself fails. -/
def fetchCommitCountFromRepos
    (fetch : Except Unit (List (Repo × CommitFetch))) : Nat :=
  match fetch with
  | .ok repos => commitsLoop repos
  | .error _ => 1247

/-- fetchCommitCountGraphQL: the aggregate contribution count when the
query succeeds, otherwise the repository-by-repository fallback. -/
def fetchCommitCountGraphQL (gql : Except Unit Nat)
    (fetch : Except Unit (List (Repo × CommitFetch))) : Nat :=
  match gql with
  | .ok n => n
  | .error _ => fetchCommitCountFromRepos fetch

/-! ### Streak Calculator (calculateStreakGraphQL lines 182-267,
calculateStreak lines 269-324)

Dates are UTC day numbers.  The source sorts with a numeric comparator
descending (primary) and with the default ascending string sort followed by
reverse (fallback); both are modelled by insertion sorts. -/

/-- A day of the contribution calendar. -/
structure ContributionDay where
  date : Int
  contributionCount : Nat
deriving DecidableEq

/-- Insert into a descending-sorted list (stable, mirrors sort by b - a). -/
def insertDesc (x : Int) : List Int → List Int
  | [] => [x]
  | y :: ys => if y ≤ x then x :: y :: ys else y :: insertDesc x ys

/-- Sort newest-first, as contributionDays.sort((a, b) => b - a). -/
def sortDesc (l : List Int) : List Int :=
  l.foldr insertDesc []

/-- Insert into an ascending-sorted list (stable, mirrors default sort). -/
def insertAsc (x : Int) : List Int → List Int
  | [] => [x]
  | y :: ys => if x ≤ y then x :: y :: ys else y :: insertAsc x ys

/-- Default ascending sort of ISO date strings. -/
def sortAsc (l : List Int) : List Int :=
  l.foldr insertAsc []

/-- Array.from(new Set(l)): keep the first occurrence of each element. -/
def dedupFirstAux (seen : List Int) : List Int → List Int
  | [] => []
  | x :: xs =>
    if x ∈ seen then dedupFirstAux seen xs
    else x :: dedupFirstAux (x :: seen) xs

/-- Distinct elements of l in order of first occurrence. -/
def dedupFirst (l : List Int) : List Int :=
  dedupFirstAux [] l

/-- Lines 248-258: the backward walk of the primary streak path — count
the prefix matching the expected-date cursor exactly, break at the first
mismatch. -/
def streakWalkGQL (expected : Int) : List Int → Nat
  | [] => 0
  | d :: rest =>
    if d = expected then streakWalkGQL (expected - 1) rest + 1 else 0

/-- Lines 221-261 applied to the sorted newest-first date list: no current
streak unless the most recent date is today or yesterday, else 1 plus the
backward walk from the day before it. -/
def streakFromSorted (today : Int) : List Int → Nat
  | [] => 0
  | first :: rest =>
    if first ≠ today ∧ first ≠ today - 1 then 0
    else 1 + streakWalkGQL (first - 1) rest

/-- calculateStreakGraphQL body after a successful query: weeks may be
missing (return 0); days with positive count are flattened, sorted newest
first and walked. -/
def calculateStreakGraphQL (today : Int)
    (weeks : Option (List (List ContributionDay))) : Nat :=
  match weeks with
  | none => 0
  | some ws =>
    streakFromSorted today
      (sortDesc (((ws.flatten).filter
        (fun d => 0 < d.contributionCount)).map (fun d => d.date)))

/-- Lines 307-317: the backward walk of the event-feed fallback — a date is
accepted when it is 0 or 1 days before the check-date cursor, and the
cursor moves back one day per accepted date. -/
def streakWalkFB (checkDate : Int) : List Int → Nat
  | [] => 0
  | d :: rest =>
    if checkDate - d = 0 ∨ checkDate - d = 1 then
      streakWalkFB (checkDate - 1) rest + 1
    else 0

/-- calculateStreak body after the event pages are fetched: events carry an
optional creation date (none models a missing created_at, filtered out);
distinct UTC dates are sorted ascending then reversed, and walked from
today. -/
def calculateStreak (today : Int) (allEvents : List (Option Int)) : Nat :=
  if allEvents.length = 0 then 0
  else
    let contributionDates := (sortAsc (dedupFirst (allEvents.filterMap id))).reverse
    if contributionDates.length = 0 then 0
    else streakWalkFB today contributionDates

/-- The full streak chain: the primary calendar path, falling back to the
event path when the calendar query throws, and to 0 when that throws too
(line 322). -/
def calculateStreakTop (today : Int)
    (cal : Except Unit (Option (List (List ContributionDay))))
    (ev : Except Unit (List (Option Int))) : Nat :=
  match cal with
  | .ok weeks => calculateStreakGraphQL today weeks
  | .error _ =>
    match ev with
    | .ok events => calculateStreak today events
    | .error _ => 0

/-! ### Lines-of-code estimate (estimateLinesOfCode, lines 326-330)

Math.random() is modelled as a rational draw q with 0 ≤ q < 1;
Math.floor(q * 5000) is its integer floor. -/

/-- Math.floor(q * 5000) for a random draw q. -/
def jitterOf (q : Rat) : Nat :=
  (Int.floor (q * 5000)).toNat

/-- estimateLinesOfCode on the fetched repository list. -/
def estimateLinesOfCodeOf (repos : List Repo) (q : Rat) : Nat :=
  repos.length * 500 + jitterOf q

/-- estimateLinesOfCode: no try/catch in the source — a failure of the
repository fetch propagates. -/
def estimateLinesOfCode (reposE : Except Unit (List Repo)) (q : Rat) :
    Except Unit Nat :=
  reposE.map (fun repos => estimateLinesOfCodeOf repos q)

/-! ### Stats Assembler (collectStats, lines 382-421) -/

/-- The user-profile lookup fields read by collectStats.  Optional string
fields model null/undefined as none; an empty string is some "". -/
structure UserData where
  name : Option String
  location : Option String
  bio : Option String
  company : Option String
  blog : Option String
  followers : Nat
  following : Nat
deriving DecidableEq

/-- The assembled record (GitHubStats.interface.ts). -/
structure GitHubStats where
  name : String
  username : String
  location : String
  bio : String
  company : String
  blog : String
  repositories : Nat
  followers : Nat
  following : Nat
  commits : Nat
  pullRequests : Nat
  issues : Nat
  stars : Nat
  streak : Nat
  linesOfCode : Nat
deriving DecidableEq

/-- JavaScript: v || fallback on a nullable string — the fallback is taken
for null/undefined and for the empty string (falsy). -/
def jsOr (v : Option String) (fallback : String) : String :=
  match v with
  | none => fallback
  | some s => if s = "" then fallback else s

/-- JavaScript: v ?? fallback on a nullable string — the fallback is taken
only for null/undefined; an empty string is kept. -/
def jsNullish (v : Option String) (fallback : String) : String :=
  match v with
  | none => fallback
  | some s => s

/-- The Promise.all batch of lines 395-402: pull requests, issues, stars,
streak and lines of code.  The stars and lines-of-code members may reject;
the barrier fails as soon as either does. -/
def aggregatorBatch (pr issue : Except Unit Nat)
    (starsRepos locRepos : Except Unit (List Repo)) (today : Int)
    (cal : Except Unit (Option (List (List ContributionDay))))
    (ev : Except Unit (List (Option Int))) (q : Rat) :
    Except Unit (Nat × Nat × Nat × Nat × Nat) := do
  let pullRequests := fetchPullRequestCount pr
  let issues := fetchIssueCount issue
  let stars ← fetchTotalStars starsRepos
  let streak := calculateStreakTop today cal ev
  let linesOfCode ← estimateLinesOfCode locRepos q
  pure (pullRequests, issues, stars, streak, linesOfCode)

/-- collectStats: user lookup and repository collection first (errors
propagate), then commits, then the concurrent batch, then the record. -/
def collectStats (username : String) (userE : Except Unit UserData)
    (reposE starsReposE locReposE : Except Unit (List Repo))
    (gqlCommits : Except Unit Nat)
    (commitFetch : Except Unit (List (Repo × CommitFetch)))
    (prSearch issueSearch : Except Unit Nat) (today : Int)
    (cal : Except Unit (Option (List (List ContributionDay))))
    (ev : Except Unit (List (Option Int))) (q : Rat) :
    Except Unit GitHubStats := do
  let userData ← userE
  let repos ← reposE
  let commits := fetchCommitCountGraphQL gqlCommits commitFetch
  let res ← aggregatorBatch prSearch issueSearch starsReposE locReposE
    today cal ev q
  let (pullRequests, issues, stars, streak, linesOfCode) := res
  pure {
    name := jsOr userData.name username
    username := username
    location := jsNullish userData.location "Srilanka, Mannar"
    bio := jsNullish userData.bio "Undergraduate Student"
    company := jsNullish userData.company "@Learning"
    blog := jsNullish userData.blog ("github.com/" ++ username)
    repositories := repos.length
    followers := userData.followers
    following := userData.following
    commits := commits
    pullRequests := pullRequests
    issues := issues
    stars := stars
    streak := streak
    linesOfCode := linesOfCode }

/-! ### Auxiliary predicates and lemmas about the streak machinery -/

/-- The list is strictly descending (newest first, no duplicates). -/
def strictDescB : List Int → Bool
  | a :: b :: l => (decide (b < a)) && strictDescB (b :: l)
  | _ => true

/-- The list is exactly the run e, e-1, e-2, ... of its own length. -/
def expectedRunB : Int → List Int → Bool
  | _, [] => true
  | e, d :: l => (decide (d = e)) && expectedRunB (e - 1) l

/-- The list is a gap-free descending run of consecutive days. -/
def consecDescB : List Int → Bool
  | [] => true
  | d :: l => expectedRunB (d - 1) l

/-- A calendar input holding exactly the given contribution dates, each
with one contribution. -/
def mkCal (ds : List Int) : Option (List (List ContributionDay)) :=
  some [ds.map (fun d => { date := d, contributionCount := 1 })]

theorem strictDescB_tail {x : Int} {xs : List Int}
    (h : strictDescB (x :: xs) = true) : strictDescB xs = true := by
  cases xs with
  | nil => rfl
  | cons y ys =>
    simp only [strictDescB, Bool.and_eq_true, decide_eq_true_eq] at h
    simpa using h.2

theorem strictDescB_head_gt {x : Int} {xs : List Int}
    (h : strictDescB (x :: xs) = true) : ∀ y ∈ xs, y < x := by
  induction xs generalizing x with
  | nil => simp
  | cons y ys ih =>
    simp only [strictDescB, Bool.and_eq_true, decide_eq_true_eq] at h
    intro z hz
    rcases List.mem_cons.mp hz with hz | hz
    · exact hz ▸ h.1
    · exact lt_trans (ih h.2 z hz) h.1

theorem sortDesc_eq_self {l : List Int} (h : strictDescB l = true) :
    sortDesc l = l := by
  induction l with
  | nil => rfl
  | cons x xs ih =>
    have hxs := strictDescB_tail h
    have hgt := strictDescB_head_gt h
    show insertDesc x (sortDesc xs) = x :: xs
    rw [ih hxs]
    cases xs with
    | nil => rfl
    | cons y ys =>
      show (if y ≤ x then x :: y :: ys else y :: insertDesc x ys) = x :: y :: ys
      rw [if_pos (le_of_lt (hgt y (by simp)))]

theorem insertAsc_append {x : Int} :
    ∀ {l : List Int}, (∀ y ∈ l, y < x) → insertAsc x l = l ++ [x] := by
  intro l
  induction l with
  | nil => intro; rfl
  | cons y ys ih =>
    intro h
    show (if x ≤ y then x :: y :: ys else y :: insertAsc x ys) = y :: (ys ++ [x])
    rw [if_neg (not_le.mpr (h y (by simp)))]
    rw [ih (fun z hz => h z (by simp [hz]))]

theorem sortAsc_eq_reverse {l : List Int} (h : strictDescB l = true) :
    sortAsc l = l.reverse := by
  induction l with
  | nil => rfl
  | cons x xs ih =>
    have hxs := strictDescB_tail h
    have hgt := strictDescB_head_gt h
    show insertAsc x (sortAsc xs) = (x :: xs).reverse
    rw [ih hxs, List.reverse_cons]
    exact insertAsc_append (fun y hy => hgt y (List.mem_reverse.mp hy))

theorem dedupFirstAux_eq {l : List Int} :
    ∀ {seen : List Int}, strictDescB l = true → (∀ y ∈ l, y ∉ seen) →
      dedupFirstAux seen l = l := by
  induction l with
  | nil => intros; rfl
  | cons x xs ih =>
    intro seen h hseen
    show (if x ∈ seen then dedupFirstAux seen xs
          else x :: dedupFirstAux (x :: seen) xs) = x :: xs
    rw [if_neg (hseen x (by simp))]
    congr 1
    refine ih (strictDescB_tail h) ?_
    intro y hy
    simp only [List.mem_cons, not_or]
    exact ⟨ne_of_lt (strictDescB_head_gt h y hy),
           hseen y (List.mem_cons_of_mem x hy)⟩

theorem dedupFirst_eq_self {l : List Int} (h : strictDescB l = true) :
    dedupFirst l = l :=
  dedupFirstAux_eq h (by simp)

theorem mem_insertDesc {a x : Int} :
    ∀ {l : List Int}, a ∈ insertDesc x l → a = x ∨ a ∈ l := by
  intro l
  induction l with
  | nil => simp [insertDesc]
  | cons y ys ih =>
    intro h
    by_cases hc : y ≤ x
    · simp only [insertDesc, if_pos hc] at h
      simpa using h
    · simp only [insertDesc, if_neg hc] at h
      rcases List.mem_cons.mp h with h | h
      · exact Or.inr (h ▸ List.mem_cons_self y ys)
      · rcases ih h with h | h
        · exact Or.inl h
        · exact Or.inr (List.mem_cons_of_mem y h)

theorem mem_sortDesc {a : Int} :
    ∀ {l : List Int}, a ∈ sortDesc l → a ∈ l := by
  intro l
  induction l with
  | nil => simp [sortDesc]
  | cons x xs ih =>
    intro h
    rcases mem_insertDesc (l := sortDesc xs) h with h | h
    · simp [h]
    · exact List.mem_cons_of_mem x (ih h)

theorem mem_insertAsc {a x : Int} :
    ∀ {l : List Int}, a ∈ insertAsc x l → a = x ∨ a ∈ l := by
  intro l
  induction l with
  | nil => simp [insertAsc]
  | cons y ys ih =>
    intro h
    by_cases hc : x ≤ y
    · simp only [insertAsc, if_pos hc] at h
      simpa using h
    · simp only [insertAsc, if_neg hc] at h
      rcases List.mem_cons.mp h with h | h
      · exact Or.inr (h ▸ List.mem_cons_self y ys)
      · rcases ih h with h | h
        · exact Or.inl h
        · exact Or.inr (List.mem_cons_of_mem y h)

theorem mem_sortAsc {a : Int} :
    ∀ {l : List Int}, a ∈ sortAsc l → a ∈ l := by
  intro l
  induction l with
  | nil => simp [sortAsc]
  | cons x xs ih =>
    intro h
    rcases mem_insertAsc (l := sortAsc xs) h with h | h
    · simp [h]
    · exact List.mem_cons_of_mem x (ih h)

theorem mem_dedupFirstAux {a : Int} :
    ∀ {l seen : List Int}, a ∈ dedupFirstAux seen l → a ∈ l := by
  intro l
  induction l with
  | nil => simp [dedupFirstAux]
  | cons x xs ih =>
    intro seen h
    by_cases hc : x ∈ seen
    · simp only [dedupFirstAux, if_pos hc] at h
      exact List.mem_cons_of_mem x (ih h)
    · simp only [dedupFirstAux, if_neg hc] at h
      rcases List.mem_cons.mp h with h | h
      · simp [h]
      · exact List.mem_cons_of_mem x (ih h)

/-! ### Walk lemmas -/

theorem streakWalkGQL_le (lo : Int) :
    ∀ (l : List Int) (e : Int), (∀ d ∈ l, lo ≤ d) →
      streakWalkGQL e l ≤ (e - lo + 1).toNat := by
  intro l
  induction l with
  | nil => intro e _; simp [streakWalkGQL]
  | cons d rest ih =>
    intro e hmem
    show (if d = e then streakWalkGQL (e - 1) rest + 1 else 0) ≤ _
    by_cases hc : d = e
    · rw [if_pos hc]
      have he : lo ≤ e := hc ▸ hmem d (by simp)
      have := ih (e - 1) (fun x hx => hmem x (List.mem_cons_of_mem d hx))
      omega
    · rw [if_neg hc]
      omega

theorem streakWalkFB_le (lo : Int) :
    ∀ (l : List Int) (c : Int), (∀ d ∈ l, lo ≤ d) →
      streakWalkFB c l ≤ (c - lo + 1).toNat := by
  intro l
  induction l with
  | nil => intro c _; simp [streakWalkFB]
  | cons d rest ih =>
    intro c hmem
    show (if c - d = 0 ∨ c - d = 1 then streakWalkFB (c - 1) rest + 1 else 0) ≤ _
    by_cases hc : c - d = 0 ∨ c - d = 1
    · rw [if_pos hc]
      have hd : lo ≤ d := hmem d (by simp)
      have := ih (c - 1) (fun x hx => hmem x (List.mem_cons_of_mem d hx))
      omega
    · rw [if_neg hc]
      omega

theorem streakWalkGQL_le_FB :
    ∀ (l : List Int) (e c : Int), (c - e = 0 ∨ c - e = 1) →
      streakWalkGQL e l ≤ streakWalkFB c l := by
  intro l
  induction l with
  | nil => intro e c _; simp [streakWalkGQL, streakWalkFB]
  | cons d rest ih =>
    intro e c hc
    show (if d = e then streakWalkGQL (e - 1) rest + 1 else 0) ≤
      (if c - d = 0 ∨ c - d = 1 then streakWalkFB (c - 1) rest + 1 else 0)
    by_cases hd : d = e
    · rw [if_pos hd, if_pos (by omega)]
      have := ih (e - 1) (c - 1) (by omega)
      omega
    · rw [if_neg hd]
      omega

theorem streakWalkGQL_run :
    ∀ (l : List Int) (e : Int), expectedRunB e l = true →
      streakWalkGQL e l = l.length := by
  intro l
  induction l with
  | nil => intro e _; rfl
  | cons d rest ih =>
    intro e h
    simp only [expectedRunB, Bool.and_eq_true, decide_eq_true_eq] at h
    show (if d = e then streakWalkGQL (e - 1) rest + 1 else 0) = rest.length + 1
    rw [if_pos h.1, ih (e - 1) h.2]

theorem streakWalkFB_run :
    ∀ (l : List Int) (e c : Int), expectedRunB e l = true →
      (c - e = 0 ∨ c - e = 1) → streakWalkFB c l = l.length := by
  intro l
  induction l with
  | nil => intro e c _ _; rfl
  | cons d rest ih =>
    intro e c h hc
    simp only [expectedRunB, Bool.and_eq_true, decide_eq_true_eq] at h
    show (if c - d = 0 ∨ c - d = 1 then streakWalkFB (c - 1) rest + 1 else 0) =
      rest.length + 1
    rw [if_pos (by omega), ih (e - 1) (c - 1) h.2 (by omega)]

/-! ### Evaluation lemmas connecting calendar/event inputs to the walks -/

theorem mkCal_pipeline (ds : List Int) :
    ((([ds.map (fun d => ({ date := d, contributionCount := 1 } :
        ContributionDay))].flatten).filter
      (fun d => 0 < d.contributionCount)).map (fun d => d.date)) = ds := by
  induction ds with
  | nil => rfl
  | cons d rest ih =>
    simpa using ih

theorem calculateStreakGraphQL_mkCal (t : Int) (ds : List Int) :
    calculateStreakGraphQL t (mkCal ds) = streakFromSorted t (sortDesc ds) := by
  simp only [calculateStreakGraphQL, mkCal]
  rw [mkCal_pipeline]

theorem calculateStreak_eval (t : Int) {D : List Int}
    (h : strictDescB D = true) :
    calculateStreak t (D.map some) = streakWalkFB t D := by
  cases D with
  | nil => rfl
  | cons x xs =>
    have hfm : ((x :: xs).map some).filterMap id = x :: xs := by
      simp [List.filterMap_map]
    simp only [calculateStreak, hfm, dedupFirst_eq_self h, sortAsc_eq_reverse h,
      List.reverse_reverse, List.length_map, List.length_cons]
    simp

/-! ### Claim theorems -/

/-- C1 (confirmed): the primary calendar-based streak calculator returns 0
on an empty date list; with dates today, today-1, today-2 it returns 3;
with today-2 alone it returns 0; with today-1 and today-3 it returns 1;
for any non-empty strictly-descending date list whose most recent date is
neither today nor yesterday it returns 0; and when the dates form an
exactly-consecutive run starting today or yesterday it counts the whole
run. -/
theorem claim1_streak_calculator (t : Int) :
    calculateStreakGraphQL t (mkCal [t, t - 1, t - 2]) = 3 ∧
    calculateStreakGraphQL t (mkCal [t - 2]) = 0 ∧
    calculateStreakGraphQL t (mkCal [t - 1, t - 3]) = 1 ∧
    calculateStreakGraphQL t (mkCal []) = 0 ∧
    (∀ (first : Int) (rest : List Int),
      strictDescB (first :: rest) = true → first ≠ t → first ≠ t - 1 →
      calculateStreakGraphQL t (mkCal (first :: rest)) = 0) ∧
    (∀ (first : Int) (rest : List Int),
      strictDescB (first :: rest) = true → (first = t ∨ first = t - 1) →
      expectedRunB (first - 1) rest = true →
      calculateStreakGraphQL t (mkCal (first :: rest)) = 1 + rest.length) := by
  have h3 : strictDescB [t, t - 1, t - 2] = true := by
    simp [strictDescB]
  have h1 : strictDescB [t - 2] = true := rfl
  have h2 : strictDescB [t - 1, t - 3] = true := by
    simp [strictDescB]
  refine ⟨?_, ?_, ?_, ?_, ?_, ?_⟩
  · rw [calculateStreakGraphQL_mkCal, sortDesc_eq_self h3]
    simp only [streakFromSorted, streakWalkGQL]
    split_ifs <;> omega
  · rw [calculateStreakGraphQL_mkCal, sortDesc_eq_self h1]
    simp only [streakFromSorted, streakWalkGQL]
    split_ifs <;> omega
  · rw [calculateStreakGraphQL_mkCal, sortDesc_eq_self h2]
    simp only [streakFromSorted, streakWalkGQL]
    split_ifs <;> omega
  · rfl
  · intro first rest hsd hne1 hne2
    rw [calculateStreakGraphQL_mkCal, sortDesc_eq_self hsd]
    simp only [streakFromSorted]
    rw [if_pos ⟨hne1, hne2⟩]
  · intro first rest hsd hor hrun
    rw [calculateStreakGraphQL_mkCal, sortDesc_eq_self hsd]
    simp only [streakFromSorted]
    rw [if_neg (by omega), streakWalkGQL_run rest (first - 1) hrun]

/-- Witness for C1 at today = 10: the concrete cases of the claim, the
zero case for a stale most-recent date, and the full-run case. -/
theorem claim1_streak_calculator_witness :
    calculateStreakGraphQL 10 (mkCal [10, 9, 8]) = 3 ∧
    calculateStreakGraphQL 10 (mkCal [7, 3]) = 0 ∧
    calculateStreakGraphQL 10 (mkCal [10, 9]) = 1 + [(9 : Int)].length := by
  refine ⟨?_, ?_, ?_⟩
  · have h := (claim1_streak_calculator 10).1
    simpa using h
  · exact (claim1_streak_calculator 10).2.2.2.2.1 7 [3] (by decide)
      (by decide) (by decide)
  · exact (claim1_streak_calculator 10).2.2.2.2.2 10 [9] (by decide)
      (Or.inl rfl) (by decide)

/-- C2 is false on the code: on the same date set, the event-feed fallback
does not reproduce the primary path: for dates today and today-2 (today =
10, dates 10 and 8) the primary calculator returns 1 (the walk demands
exact consecutiveness after the first day) but the fallback returns 2 (it
allows a 0/1-day delta at every step). -/
theorem claim2_fallback_counterexample :
    calculateStreakGraphQL 10 (mkCal [10, 8]) = 1 ∧
    calculateStreak 10 [some 10, some 8] = 2 ∧
    calculateStreakGraphQL 10 (mkCal [10, 8]) ≠
      calculateStreak 10 [some 10, some 8] := by
  refine ⟨by decide, by decide, by decide⟩

/-- C2 (corrected): on equivalent input (the same strictly-descending list
of distinct UTC activity dates) the fallback agrees with the primary
calculator on whether a streak is active (both are 0 exactly when the most
recent date is neither today nor yesterday), never returns less than the
primary, and coincides with it whenever the dates form a gap-free
consecutive run — but it may exceed the primary on gapped inputs, because
it allows a 0/1-day delta at every step instead of only at the start. -/
theorem claim2_fallback_amended (t : Int) (D : List Int)
    (hD : strictDescB D = true) :
    (calculateStreakGraphQL t (mkCal D) = 0 ↔
      calculateStreak t (D.map some) = 0) ∧
    calculateStreakGraphQL t (mkCal D) ≤ calculateStreak t (D.map some) ∧
    (consecDescB D = true →
      calculateStreakGraphQL t (mkCal D) = calculateStreak t (D.map some)) := by
  rw [calculateStreakGraphQL_mkCal, sortDesc_eq_self hD,
    calculateStreak_eval t hD]
  cases D with
  | nil => exact ⟨Iff.rfl, le_refl 0, fun _ => rfl⟩
  | cons first rest =>
    by_cases hc : first = t ∨ first = t - 1
    · have hps : streakFromSorted t (first :: rest) =
          1 + streakWalkGQL (first - 1) rest := by
        simp only [streakFromSorted]
        rw [if_neg (by omega)]
      have hfs : streakWalkFB t (first :: rest) =
          streakWalkFB (t - 1) rest + 1 := by
        show (if t - first = 0 ∨ t - first = 1 then
          streakWalkFB (t - 1) rest + 1 else 0) = _
        rw [if_pos (by omega)]
      refine ⟨?_, ?_, ?_⟩
      · rw [hps, hfs]
        omega
      · rw [hps, hfs]
        have := streakWalkGQL_le_FB rest (first - 1) (t - 1) (by omega)
        omega
      · intro hrun
        simp only [consecDescB] at hrun
        rw [hps, hfs, streakWalkGQL_run rest (first - 1) hrun,
          streakWalkFB_run rest (first - 1) (t - 1) hrun (by omega)]
        omega
    · have hps : streakFromSorted t (first :: rest) = 0 := by
        simp only [streakFromSorted]
        rw [if_pos (by omega)]
      have hfs : streakWalkFB t (first :: rest) = 0 := by
        show (if t - first = 0 ∨ t - first = 1 then
          streakWalkFB (t - 1) rest + 1 else 0) = 0
        rw [if_neg (by omega)]
      rw [hps, hfs]
      exact ⟨Iff.rfl, le_refl 0, fun _ => rfl⟩

/-- Witness for C2 (amended) at today = 10 on the consecutive run 10, 9:
both calculators return the same value. -/
theorem claim2_fallback_amended_witness :
    (calculateStreakGraphQL 10 (mkCal [10, 9]) = 0 ↔
      calculateStreak 10 [some 10, some 9] = 0) ∧
    calculateStreakGraphQL 10 (mkCal [10, 9]) ≤
      calculateStreak 10 [some 10, some 9] ∧
    (consecDescB [10, 9] = true →
      calculateStreakGraphQL 10 (mkCal [10, 9]) =
        calculateStreak 10 [some 10, some 9]) := by
  exact claim2_fallback_amended 10 [10, 9] (by decide)

/-- C5 (confirmed): the stars aggregator returns exactly the sum of
stargazers_count over every collected repository, forks included (the
value is unchanged by any fork-flag assignment); star counts 3, 0, 7
(with a fork among them) total 10; and the stars field of the assembled record
equals that sum for every collected list. -/
theorem claim5_stars_sum :
    (∀ repos : List Repo, fetchTotalStars (.ok repos) =
      .ok ((repos.map (fun r => r.stargazers_count)).sum)) ∧
    fetchTotalStars (.ok [{ name := "a", fork := false, stargazers_count := 3 },
      { name := "b", fork := true, stargazers_count := 0 },
      { name := "c", fork := false, stargazers_count := 7 }]) = .ok 10 ∧
    (∀ (repos : List Repo) (b : Bool),
      totalStarsReduce (repos.map (fun r => { r with fork := b })) =
        totalStarsReduce repos) ∧
    (∀ (username : String) (u : UserData) (repos starsRepos locRepos : List Repo)
      (gqlCommits : Except Unit Nat)
      (commitFetch : Except Unit (List (Repo × CommitFetch)))
      (prSearch issueSearch : Except Unit Nat) (today : Int)
      (cal : Except Unit (Option (List (List ContributionDay))))
      (ev : Except Unit (List (Option Int))) (q : Rat),
      (collectStats username (.ok u) (.ok repos) (.ok starsRepos)
        (.ok locRepos) gqlCommits commitFetch prSearch issueSearch today
        cal ev q).map (fun s => s.stars) =
      .ok ((starsRepos.map (fun r => r.stargazers_count)).sum)) := by
  refine ⟨?_, ?_, ?_, ?_⟩
  · intro repos
    simp [fetchTotalStars, Except.map, totalStarsReduce_eq_sum]
  · rfl
  · intro repos b
    rw [totalStarsReduce_eq_sum, totalStarsReduce_eq_sum, List.map_map]
    rfl
  · intro username u repos starsRepos locRepos gqlCommits commitFetch
      prSearch issueSearch today cal ev q
    simp [collectStats, aggregatorBatch, fetchTotalStars, estimateLinesOfCode,
      Except.map, bind, Except.bind, pure, Except.pure, totalStarsReduce_eq_sum]

/-- C3 is false on the code: the stars aggregator has no try/catch — a
failure of its repository fetch is not replaced by a fallback value but
propagates, and with such a failure the Promise.all batch rejects instead
of succeeding. -/
theorem claim3_isolation_counterexample :
    fetchTotalStars (.error ()) = .error () ∧
    aggregatorBatch (.ok 5) (.ok 7) (.error ()) (.ok []) 0 (.ok none)
      (.ok []) 0 = .error () := by
  exact ⟨rfl, rfl⟩

/-- C3 (corrected): the pull-request, issue and streak aggregators do
catch their failures locally and substitute the documented fallbacks (89,
156, and the streak chain ending in 0), but the stars and lines-of-code
aggregators catch nothing — a repository-fetch failure propagates out of
them — so the Promise.all barrier succeeds exactly when both of those
repository fetches succeed. -/
theorem claim3_isolation_amended (pr issue : Except Unit Nat)
    (starsRepos locRepos : Except Unit (List Repo)) (today : Int)
    (cal : Except Unit (Option (List (List ContributionDay))))
    (ev : Except Unit (List (Option Int))) (q : Rat) :
    fetchPullRequestCount (.error ()) = 89 ∧
    fetchIssueCount (.error ()) = 156 ∧
    calculateStreakTop today (.error ()) (.error ()) = 0 ∧
    fetchTotalStars (.error ()) = .error () ∧
    estimateLinesOfCode (.error ()) q = .error () ∧
    ((∃ v, aggregatorBatch pr issue starsRepos locRepos today cal ev q =
        .ok v) ↔
      (∃ rs, starsRepos = .ok rs) ∧ (∃ rs, locRepos = .ok rs)) := by
  refine ⟨rfl, rfl, rfl, rfl, rfl, ?_⟩
  cases starsRepos <;> cases locRepos <;>
    simp [aggregatorBatch, fetchTotalStars, estimateLinesOfCode, Except.map,
      bind, Except.bind, pure, Except.pure]

theorem commitsLoop_append (l1 l2 : List (Repo × CommitFetch)) :
    commitsLoop (l1 ++ l2) = commitsLoop l1 + commitsLoop l2 := by
  induction l1 with
  | nil => simp [commitsLoop]
  | cons e rest ih =>
    obtain ⟨repo, res⟩ := e
    by_cases hf : repo.fork
    · simp [commitsLoop, hf, ih]
    · cases res with
      | ok link => simp [commitsLoop, hf, ih]; omega
      | error st => simp [commitsLoop, hf, ih]

/-- C7 (confirmed): in the repository-by-repository commit fallback every
fork contributes nothing wherever it sits in the list, a repository whose
commit listing fails with status 404 or 409 is skipped leaving the totals
of the other repositories unchanged, and a failure of the whole fallback path
returns the literal 1247. -/
theorem claim7_commit_fallback (pre post : List (Repo × CommitFetch))
    (r : Repo) (res : CommitFetch) (st : Nat) :
    (r.fork = true →
      commitsLoop (pre ++ (r, res) :: post) = commitsLoop (pre ++ post)) ∧
    ((st = 404 ∨ st = 409) →
      commitsLoop (pre ++ (r, .error st) :: post) =
        commitsLoop (pre ++ post)) ∧
    fetchCommitCountFromRepos (.error ()) = 1247 := by
  refine ⟨?_, ?_, rfl⟩
  · intro hf
    have hskip : commitsLoop ((r, res) :: post) = commitsLoop post := by
      simp [commitsLoop, hf]
    rw [commitsLoop_append, hskip, ← commitsLoop_append]
  · intro _
    have hskip : commitsLoop ((r, Except.error st) :: post) =
        commitsLoop post := by
      cases hf : r.fork <;> simp [commitsLoop, hf]
    rw [commitsLoop_append, hskip, ← commitsLoop_append]

/-- Witness for C7: a fork and a 404-failing repository in the middle of a
batch leave the total unchanged, and the failed fallback returns 1247. -/
theorem claim7_commit_fallback_witness :
    commitsLoop [({ name := "c", fork := false, stargazers_count := 0 },
        .ok (some 7)),
      ({ name := "f", fork := true, stargazers_count := 0 }, .ok (some 5))] =
      commitsLoop [({ name := "c", fork := false, stargazers_count := 0 },
        .ok (some 7))] ∧
    commitsLoop [({ name := "c", fork := false, stargazers_count := 0 },
        .ok (some 7)),
      ({ name := "d", fork := false, stargazers_count := 0 }, .error 404)] =
      commitsLoop [({ name := "c", fork := false, stargazers_count := 0 },
        .ok (some 7))] ∧
    fetchCommitCountFromRepos (.error ()) = 1247 := by
  refine ⟨?_, ?_, ?_⟩
  · exact (claim7_commit_fallback
      [({ name := "c", fork := false, stargazers_count := 0 }, .ok (some 7))]
      [] { name := "f", fork := true, stargazers_count := 0 }
      (.ok (some 5)) 0).1 rfl
  · exact (claim7_commit_fallback
      [({ name := "c", fork := false, stargazers_count := 0 }, .ok (some 7))]
      [] { name := "d", fork := false, stargazers_count := 0 }
      (.ok none) 404).2.1 (Or.inl rfl)
  · exact (claim7_commit_fallback [] []
      { name := "x", fork := false, stargazers_count := 0 }
      (.ok none) 0).2.2

/-- C8 (confirmed): the lines-of-code estimate equals the repository count
times 500 plus the floor of the random draw scaled by 5000; for a draw in
[0, 1) the jitter is below 5000, so the estimate lies in
[N*500, N*500 + 5000). -/
theorem claim8_loc_estimate (repos : List Repo) (q : Rat)
    (_h0 : 0 ≤ q) (h1 : q < 1) :
    estimateLinesOfCodeOf repos q = repos.length * 500 + jitterOf q ∧
    jitterOf q < 5000 ∧
    repos.length * 500 ≤ estimateLinesOfCodeOf repos q ∧
    estimateLinesOfCodeOf repos q < repos.length * 500 + 5000 := by
  have h5 : q * 5000 < 5000 := by nlinarith
  have hlt : Int.floor (q * 5000) < (5000 : Int) := by
    apply Int.floor_lt.mpr
    exact_mod_cast h5
  have hj : jitterOf q < 5000 := by
    simp only [jitterOf]
    omega
  refine ⟨rfl, hj, Nat.le_add_right _ _, ?_⟩
  simp only [estimateLinesOfCodeOf]
  omega

/-- Witness for C8 at the empty repository list and the draw 1/2. -/
theorem claim8_loc_estimate_witness :
    estimateLinesOfCodeOf [] (1 / 2) =
      List.length ([] : List Repo) * 500 + jitterOf (1 / 2) ∧
    jitterOf (1 / 2) < 5000 ∧
    List.length ([] : List Repo) * 500 ≤ estimateLinesOfCodeOf [] (1 / 2) ∧
    estimateLinesOfCodeOf [] (1 / 2) <
      List.length ([] : List Repo) * 500 + 5000 :=
  claim8_loc_estimate [] (1 / 2) (by norm_num) (by norm_num)

/-- Projection forgetting the one randomized field of the record. -/
def eraseLinesOfCode (s : GitHubStats) : GitHubStats :=
  { s with linesOfCode := 0 }

/-- C9 (confirmed): the assembler is a deterministic function of the API
responses, the current date and the jitter draw: two runs over identical
responses and the same date agree on every field except linesOfCode, the
only field the jitter reaches. -/
theorem claim9_assembler_deterministic (username : String)
    (userE : Except Unit UserData)
    (reposE starsReposE locReposE : Except Unit (List Repo))
    (gqlCommits : Except Unit Nat)
    (commitFetch : Except Unit (List (Repo × CommitFetch)))
    (prSearch issueSearch : Except Unit Nat) (today : Int)
    (cal : Except Unit (Option (List (List ContributionDay))))
    (ev : Except Unit (List (Option Int))) (q1 q2 : Rat) :
    (collectStats username userE reposE starsReposE locReposE gqlCommits
      commitFetch prSearch issueSearch today cal ev q1).map eraseLinesOfCode =
    (collectStats username userE reposE starsReposE locReposE gqlCommits
      commitFetch prSearch issueSearch today cal ev q2).map eraseLinesOfCode := by
  cases userE <;> cases reposE <;> cases starsReposE <;> cases locReposE <;>
    simp [collectStats, aggregatorBatch, fetchTotalStars, estimateLinesOfCode,
      eraseLinesOfCode, Except.map, bind, Except.bind, pure, Except.pure]

/-- C10 (confirmed): in the assembled record the static texts for
location, bio, company and blog are substituted only when the profile
field is null/undefined — an empty string from the profile is kept
verbatim — while the name additionally falls back to the username when the
profile name is the empty string. -/
theorem claim10_profile_fallbacks (username : String) (u : UserData)
    (repos starsRepos locRepos : List Repo) (gqlCommits : Except Unit Nat)
    (commitFetch : Except Unit (List (Repo × CommitFetch)))
    (prSearch issueSearch : Except Unit Nat) (today : Int)
    (cal : Except Unit (Option (List (List ContributionDay))))
    (ev : Except Unit (List (Option Int))) (q : Rat) :
    (collectStats username (.ok u) (.ok repos) (.ok starsRepos)
        (.ok locRepos) gqlCommits commitFetch prSearch issueSearch today
        cal ev q).map (fun s => (s.name, s.location, s.bio, s.company, s.blog)) =
      .ok (jsOr u.name username,
        jsNullish u.location "Srilanka, Mannar",
        jsNullish u.bio "Undergraduate Student",
        jsNullish u.company "@Learning",
        jsNullish u.blog ("github.com/" ++ username)) ∧
    (∀ s, u.location = some s → jsNullish u.location "Srilanka, Mannar" = s) ∧
    (u.location = none →
      jsNullish u.location "Srilanka, Mannar" = "Srilanka, Mannar") ∧
    (∀ s, u.bio = some s → jsNullish u.bio "Undergraduate Student" = s) ∧
    (u.bio = none →
      jsNullish u.bio "Undergraduate Student" = "Undergraduate Student") ∧
    (∀ s, u.company = some s → jsNullish u.company "@Learning" = s) ∧
    (u.company = none → jsNullish u.company "@Learning" = "@Learning") ∧
    (∀ s, u.blog = some s →
      jsNullish u.blog ("github.com/" ++ username) = s) ∧
    (u.blog = none →
      jsNullish u.blog ("github.com/" ++ username) = "github.com/" ++ username) ∧
    (u.name = some "" → jsOr u.name username = username) ∧
    (u.name = none → jsOr u.name username = username) ∧
    (∀ s, s ≠ "" → u.name = some s → jsOr u.name username = s) := by
  refine ⟨?_, ?_, ?_, ?_, ?_, ?_, ?_, ?_, ?_, ?_, ?_, ?_⟩
  · simp [collectStats, aggregatorBatch, fetchTotalStars, estimateLinesOfCode,
      Except.map, bind, Except.bind, pure, Except.pure]
  · intro s h; rw [h]; rfl
  · intro h; rw [h]; rfl
  · intro s h; rw [h]; rfl
  · intro h; rw [h]; rfl
  · intro s h; rw [h]; rfl
  · intro h; rw [h]; rfl
  · intro s h; rw [h]; rfl
  · intro h; rw [h]; rfl
  · intro h; rw [h]; rfl
  · intro h; rw [h]; rfl
  · intro s hs h; rw [h]; simp [jsOr, hs]

/-- Witness for C10: with a profile whose location is the empty string and
whose name is the empty string, the location is kept verbatim while the
name falls back to the username. -/
theorem claim10_profile_fallbacks_witness :
    jsNullish (some "") "Srilanka, Mannar" = "" ∧
    jsOr (some "") "user" = "user" := by
  have h := claim10_profile_fallbacks "user"
    { name := some "", location := some "", bio := none, company := some "x",
      blog := none, followers := 0, following := 0 }
    [] [] [] (.ok 0) (.ok []) (.ok 0) (.ok 0) 0 (.ok none) (.ok []) 0
  exact ⟨h.2.1 "" rfl, h.2.2.2.2.2.2.2.2.2.1 rfl⟩

/-- A one-year contribution calendar: every date from today-365 to today
(366 dates), each with one contribution, for today = 365. -/
def calYear : List ContributionDay :=
  (List.range 366).map (fun n => ⟨365 - (n : Int), 1⟩)

set_option maxRecDepth 10000 in
/-- C6 is false on the code: a calendar whose dates all lie within the
one-year window today-365 .. today can produce a streak of 366, outside
the claimed range [0, 365] — the walk itself imposes no cap below the
window size, and the window holds 366 dates inclusive. -/
theorem claim6_range_counterexample :
    (∀ d ∈ calYear, (365 : Int) - 365 ≤ d.date ∧ d.date ≤ 365) ∧
    calculateStreakGraphQL 365 (some [calYear]) = 366 ∧
    ¬ calculateStreakGraphQL 365 (some [calYear]) ≤ 365 := by
  refine ⟨by decide, by decide, by decide⟩

/-- C6 (corrected): for every calendar whose contribution dates lie in the
one-year window (no date older than today-365) and every event feed whose
dates lie in the same window, the streak is a natural number at most 366 —
not 365 — on the primary path, the fallback path, and the total-failure
path (which yields 0). -/
theorem claim6_streak_range_amended (t : Int)
    (ws : List (List ContributionDay)) (evs : List (Option Int))
    (hcal : ∀ w ∈ ws, ∀ d ∈ w, t - 365 ≤ d.date)
    (hev : ∀ d : Int, some d ∈ evs → t - 365 ≤ d) :
    calculateStreakGraphQL t (some ws) ≤ 366 ∧
    calculateStreakGraphQL t none = 0 ∧
    calculateStreak t evs ≤ 366 ∧
    calculateStreakTop t (.error ()) (.error ()) = 0 := by
  have key : ∀ L : List Int, (∀ x ∈ L, t - 365 ≤ x) →
      streakFromSorted t L ≤ 366 := by
    intro L hmem
    cases L with
    | nil => simp [streakFromSorted]
    | cons first rest =>
      simp only [streakFromSorted]
      split_ifs with h
      · omega
      · have hw := streakWalkGQL_le (t - 365) rest (first - 1)
          (fun x hx => hmem x (List.mem_cons_of_mem first hx))
        omega
  refine ⟨?_, rfl, ?_, rfl⟩
  · simp only [calculateStreakGraphQL]
    apply key
    intro x hx
    have hx1 := mem_sortDesc hx
    rcases List.mem_map.mp hx1 with ⟨d, hd, rfl⟩
    have hd2 := (List.mem_filter.mp hd).1
    rcases List.mem_flatten.mp hd2 with ⟨w, hw, hdw⟩
    exact hcal w hw d hdw
  · simp only [calculateStreak]
    split_ifs with h1 h2
    · omega
    · omega
    · have hmem : ∀ x ∈ (sortAsc (dedupFirst (evs.filterMap id))).reverse,
          t - 365 ≤ x := by
        intro x hx
        have hx1 := mem_sortAsc (List.mem_reverse.mp hx)
        have hx2 := mem_dedupFirstAux hx1
        rcases List.mem_filterMap.mp hx2 with ⟨a, ha, hax⟩
        exact hev x (by rwa [show a = some x from hax] at ha)
      have hw := streakWalkFB_le (t - 365)
        ((sortAsc (dedupFirst (evs.filterMap id))).reverse) t hmem
      omega

/-- Witness for C6 (amended) on a one-day calendar and one-event feed at
today = 0. -/
theorem claim6_streak_range_amended_witness :
    calculateStreakGraphQL 0
      (some [[{ date := 0, contributionCount := 1 }]]) ≤ 366 ∧
    calculateStreakGraphQL 0 none = 0 ∧
    calculateStreak 0 [some 0] ≤ 366 ∧
    calculateStreakTop 0 (.error ()) (.error ()) = 0 := by
  refine claim6_streak_range_amended 0 [[⟨0, 1⟩]] [some 0] ?_ ?_
  · intro w hw d hd
    simp at hw
    subst hw
    simp at hd
    subst hd
    decide
  · intro d hd
    simp at hd
    omega

end ProfileGen
